import Mathlib

/-!
A verification development for the SimBIDS skeleton-to-filesystem
materializer (src/simbids/utils/bids.py).  The Python functions
generate_bids_skeleton, combine_entities, to_json and simulate_dataset are
shallowly embedded as pure Lean functions over an explicit filesystem
state.  Python dictionaries (insertion-ordered, string-keyed) are
association lists, JSON/YAML scalars are a small value type, and the
destructive pop-based traversal of the source is threaded explicitly.
The archiver and the zip-level validation of simulate_dataset are not
present in the checked-in sources (only their tests are) and are modelled
from the specification, as marked on the definitions below.
-/

/-- A decoded JSON/YAML value, as the Python code sees it: None, bool,
int, str, list or (insertion-ordered, string-keyed) dict. -/
inductive JVal where
  | null
  | bool (b : Bool)
  | num (n : Int)
  | str (s : String)
  | arr (xs : List JVal)
  | obj (kvs : List (String × JVal))

/-- Association-list form of a Python dict. -/
abbrev JObj := List (String × JVal)

/-- Python dict.pop with a default: remove the binding for the key, return
the removed value (none when the key is absent) and the remaining dict,
order preserved. -/
def pyPop (k : String) : JObj → Option JVal × JObj
  | [] => (none, [])
  | (k', v) :: rest =>
    if k' = k then (some v, rest)
    else
      let r := pyPop k rest
      (r.1, (k', v) :: r.2)

/-- Python dict.update with a single key: overwrite in place when the key
exists (position preserved), otherwise append the binding at the end. -/
def dictUpdate (d : JObj) (k : String) (v : JVal) : JObj :=
  if d.any (fun kv => kv.1 == k) then
    d.map (fun kv => if kv.1 == k then (k, v) else kv)
  else d ++ [(k, v)]

mutual
/-- Python repr of a value, used when str renders the elements of a
container.  String escaping inside repr is not reproduced (no claim
exercises container-valued entities). -/
def pyRepr : JVal → String
  | .null => "None"
  | .bool b => if b then "True" else "False"
  | .num n => toString n
  | .str s => "'" ++ s ++ "'"
  | .arr xs => "[" ++ pyReprList xs ++ "]"
  | .obj kvs => "\x7b" ++ pyReprObj kvs ++ "\x7d"

def pyReprList : List JVal → String
  | [] => ""
  | [x] => pyRepr x
  | x :: xs => pyRepr x ++ ", " ++ pyReprList xs

def pyReprObj : List (String × JVal) → String
  | [] => ""
  | [(k, v)] => "'" ++ k ++ "': " ++ pyRepr v
  | (k, v) :: kvs => "'" ++ k ++ "': " ++ pyRepr v ++ ", " ++ pyReprObj kvs
end

/-- Python str() as an f-string applies it to an interpolated value. -/
def pyStr : JVal → String
  | .null => "None"
  | .bool b => if b then "True" else "False"
  | .num n => toString n
  | .str s => s
  | .arr xs => pyRepr (.arr xs)
  | .obj kvs => pyRepr (.obj kvs)

/-- One lowercase hex digit. -/
def hexDigit (n : Nat) : Char :=
  if n < 10 then Char.ofNat (48 + n) else Char.ofNat (87 + n)

/-- Four lowercase hex digits, as in a JSON backslash-u escape. -/
def hex4 (n : Nat) : String :=
  String.mk [hexDigit (n / 4096 % 16), hexDigit (n / 256 % 16),
             hexDigit (n / 16 % 16), hexDigit (n % 16)]

/-- The escape json.dumps (ensure_ascii, the default) applies to one
character of a string. -/
def jsonEscChar (c : Char) : String :=
  if c = Char.ofNat 34 then "\\\""
  else if c = Char.ofNat 92 then "\\\\"
  else if c = Char.ofNat 10 then "\\n"
  else if c = Char.ofNat 9 then "\\t"
  else if c = Char.ofNat 13 then "\\r"
  else if c.toNat = 8 then "\\b"
  else if c.toNat = 12 then "\\f"
  else if c.toNat < 32 then "\\u" ++ hex4 c.toNat
  else if c.toNat < 127 then String.mk [c]
  else if c.toNat < 65536 then "\\u" ++ hex4 c.toNat
  else
    let v := c.toNat - 65536
    "\\u" ++ hex4 (55296 + v / 1024) ++ "\\u" ++ hex4 (56320 + v % 1024)

/-- A JSON string literal as json.dumps writes it. -/
def jsonQuote (s : String) : String :=
  "\"" ++ String.join (s.data.map jsonEscChar) ++ "\""

mutual
/-- json.dumps with default arguments: compact, one line, separators
a comma-space and a colon-space.  This is what to_json writes. -/
def jsonDumps : JVal → String
  | .null => "null"
  | .bool b => if b then "true" else "false"
  | .num n => toString n
  | .str s => jsonQuote s
  | .arr xs => "[" ++ jsonDumpsList xs ++ "]"
  | .obj kvs => "\x7b" ++ jsonDumpsObj kvs ++ "\x7d"

def jsonDumpsList : List JVal → String
  | [] => ""
  | [x] => jsonDumps x
  | x :: xs => jsonDumps x ++ ", " ++ jsonDumpsList xs

def jsonDumpsObj : List (String × JVal) → String
  | [] => ""
  | [(k, v)] => jsonQuote k ++ ": " ++ jsonDumps v
  | (k, v) :: kvs => jsonQuote k ++ ": " ++ jsonDumps v ++ ", " ++ jsonDumpsObj kvs
end

/-- Indentation for pretty-printed JSON at a nesting level. -/
def jsonIndent (level : Nat) : String := String.mk (List.replicate (4 * level) ' ')

mutual
/-- json.dumps with indent equal to four, the pretty-printed rendering
this repository uses elsewhere (write_derivative_description): items on
their own lines, four spaces of indentation per level. -/
def jsonPretty (level : Nat) : JVal → String
  | .null => "null"
  | .bool b => if b then "true" else "false"
  | .num n => toString n
  | .str s => jsonQuote s
  | .arr xs =>
    match xs with
    | [] => "[]"
    | _ => "[\n" ++ jsonPrettyList level xs ++ "\n" ++ jsonIndent level ++ "]"
  | .obj kvs =>
    match kvs with
    | [] => "\x7b\x7d"
    | _ => "\x7b\n" ++ jsonPrettyObj level kvs ++ "\n" ++ jsonIndent level ++ "\x7d"

def jsonPrettyList (level : Nat) : List JVal → String
  | [] => ""
  | [x] => jsonIndent (level + 1) ++ jsonPretty (level + 1) x
  | x :: xs =>
    jsonIndent (level + 1) ++ jsonPretty (level + 1) x ++ ",\n" ++ jsonPrettyList level xs

def jsonPrettyObj (level : Nat) : List (String × JVal) → String
  | [] => ""
  | [(k, v)] => jsonIndent (level + 1) ++ jsonQuote k ++ ": " ++ jsonPretty (level + 1) v
  | (k, v) :: kvs =>
    jsonIndent (level + 1) ++ jsonQuote k ++ ": " ++ jsonPretty (level + 1) v ++ ",\n" ++
      jsonPrettyObj level kvs
end

/-- Python combine_entities: empty string for no entities, otherwise an
underscore then label-value pairs joined by underscores, in iteration
order, values coerced through str(). -/
def combine_entities (kvs : JObj) : String :=
  match kvs with
  | [] => ""
  | _ => "_" ++ String.intercalate "_" (kvs.map (fun kv => kv.1 ++ "-" ++ pyStr kv.2))

/-- The worker of pyReplace for a nonempty pattern: scan left to right,
replacing each non-overlapping occurrence. -/
def pyRepGo (pat rep : List Char) : List Char → List Char
  | [] => []
  | c :: cs =>
    if pat.isPrefixOf (c :: cs) then rep ++ pyRepGo pat rep (List.drop (pat.length - 1) cs)
    else c :: pyRepGo pat rep cs
termination_by l => l.length
decreasing_by
  · simp only [List.length_drop, List.length_cons]
    omega
  · simp only [List.length_cons]
    omega

/-- Python str.replace with all occurrences replaced: non-overlapping,
left to right; the empty pattern inserts the replacement at every
boundary, including both ends. -/
def pyReplace (s pat rep : String) : String :=
  match pat.data with
  | [] => String.mk (rep.data ++ (s.data.map (fun c => c :: rep.data)).flatten)
  | _ => String.mk (pyRepGo pat.data rep.data s.data)

/-- A filesystem path, as a list of components below an abstract root. -/
abbrev FPath := List String

/-- The content of an ordinary file: text written by to_json, or a block
of bytes of which only the length is determined (touch creates an empty
block, the fill step a block of random bytes). -/
inductive SData where
  | text (s : String)
  | bin (size : Nat)
deriving DecidableEq, Repr

/-- A file on disk: ordinary data, or a zip archive holding entries of
archive-internal path and data. -/
inductive FData where
  | data (d : SData)
  | zipArc (entries : List (FPath × SData))
deriving DecidableEq, Repr

/-- The archive projection of a file: archiving stores an ordinary file
unchanged; the branch for an archive inside an archive is never reached
by this program (zips are only ever written outside the dataset tree). -/
def FData.proj : FData → SData
  | .data d => d
  | .zipArc _ => .bin 0

/-- The byte count of ordinary file data. -/
def SData.size : SData → Nat
  | .text s => s.utf8ByteSize
  | .bin n => n

/-- The filesystem state: directories and files in creation order.  Paths
are unique within each list by construction of the operations below. -/
structure FS where
  dirs : List FPath
  files : List (FPath × FData)
deriving DecidableEq, Repr

/-- The empty filesystem. -/
def FS.empty : FS := ⟨[], []⟩

/-- Python's errors as the embedding distinguishes them. -/
inductive PyErr where
  | fileExists
  | fileNotFound (msg : String)
  | keyError (k : String)
  | typeError
  | attrError
  | valueError (msg : String)
deriving DecidableEq, Repr

/-- Create a directory if it is missing; mkdir with exist_ok. -/
def FS.mkdirOk (fs : FS) (p : FPath) : FS :=
  if fs.dirs.any (fun d => d == p) then fs
  else { fs with dirs := fs.dirs ++ [p] }

/-- Path.mkdir with parents and without exist_ok: fail when the target
exists, otherwise create every missing ancestor and then the target. -/
def FS.mkdirParents (fs : FS) (p : FPath) : Except PyErr FS :=
  if fs.dirs.any (fun d => d == p) then .error .fileExists
  else .ok (((List.range p.length).map (fun i => p.take (i + 1))).foldl FS.mkdirOk fs)

/-- Path.touch: create an empty file when the path is absent, otherwise
leave the existing content alone. -/
def FS.touch (fs : FS) (p : FPath) : FS :=
  if fs.files.any (fun f => f.1 == p) then fs
  else { fs with files := fs.files ++ [(p, .data (.bin 0))] }

/-- Path.write_text and the fill step's open-and-write: create the file
or overwrite its content in place. -/
def FS.write (fs : FS) (p : FPath) (d : FData) : FS :=
  if fs.files.any (fun f => f.1 == p) then
    { fs with files := fs.files.map (fun f => if f.1 == p then (p, d) else f) }
  else { fs with files := fs.files ++ [(p, d)] }

/-- The sub- normalization of a subject label. -/
def normSub (s : String) : String :=
  if s.startsWith "sub-" then s else "sub-" ++ s

/-- The ses- normalization of a session label. -/
def normSes (s : String) : String :=
  if s.startsWith "ses-" then s else "ses-" ++ s

/-- One file entry of a modality: pop metadata (an explicit null counts
as absent, as the source tests metadata against None), pop extension with
its default, pop suffix (a missing suffix is the KeyError of dict.pop
without default), build the name from the remaining entity pairs, touch
the empty data file, and write the sidecar when metadata was present.
A non-dict entry fails the way the pops fail in Python. -/
def processEntry (fs : FS) (modPath : FPath) (pfx : String) (entry : JVal) :
    FS × Except PyErr Unit :=
  match entry with
  | .obj kvs0 =>
    let pm := pyPop "metadata" kvs0
    let metaVal := pm.1.getD .null
    let pe := pyPop "extension" pm.2
    let extVal := pe.1.getD (.str ".nii.gz")
    let ps := pyPop "suffix" pe.2
    match ps.1 with
    | none => (fs, .error (.keyError "suffix"))
    | some sufVal =>
      let name := pfx ++ combine_entities ps.2 ++ "_" ++ pyStr sufVal ++ pyStr extVal
      let fs1 := fs.touch (modPath ++ [name])
      match metaVal with
      | .null => (fs1, .ok ())
      | m =>
        match extVal with
        | .str es =>
          (fs1.write (modPath ++ [pyReplace name es ".json"]) (.data (.text (jsonDumps m))),
           .ok ())
        | _ => (fs1, .error .typeError)
  | .arr _ => (fs, .error .typeError)
  | _ => (fs, .error .attrError)

/-- The file entries of one modality, in order, stopping at the first
failure with the filesystem as mutated so far. -/
def processFiles (fs : FS) (modPath : FPath) (pfx : String) :
    List JVal → FS × Except PyErr Unit
  | [] => (fs, .ok ())
  | e :: rest =>
    match processEntry fs modPath pfx e with
    | (fs1, .ok _) => processFiles fs1 modPath pfx rest
    | (fs1, .error er) => (fs1, .error er)

/-- The iteration Python performs over the value of a modality key: a
dict is a single entry, a list is taken as is, a string yields its
characters as one-character strings, anything else is not iterable. -/
def entryList : JVal → Except PyErr (List JVal)
  | .obj kvs => .ok [.obj kvs]
  | .arr xs => .ok xs
  | .str s => .ok (s.data.map (fun c => .str (String.mk [c])))
  | _ => .error .typeError

/-- The modalities of one session entry: create the modality directory,
normalize the value to a list of entries, and process them. -/
def processModalities (fs : FS) (curr : FPath) (pfx : String) :
    JObj → FS × Except PyErr Unit
  | [] => (fs, .ok ())
  | (modality, files) :: rest =>
    let fs1 := fs.mkdirOk (curr ++ [modality])
    match entryList files with
    | .error e => (fs1, .error e)
    | .ok fl =>
      match processFiles fs1 (curr ++ [modality]) pfx fl with
      | (fs2, .ok _) => processModalities fs2 curr pfx rest
      | err => err

/-- The session entries of one subject: pop the session key (an explicit
null and an absent key both mean no session level), create the session
directory when there is one, and process the modalities; a session entry
that is not a dict, or a session value that is neither a string nor
null, fails the way the attribute accesses fail in Python. -/
def processSessions (fs : FS) (root : FPath) (bsub : String) :
    List JVal → FS × Except PyErr Unit
  | [] => (fs, .ok ())
  | s :: rest =>
    match s with
    | .obj kvs0 =>
      let pp := pyPop "session" kvs0
      match pp.1.getD .null with
      | .null =>
        match processModalities fs (root ++ [bsub]) bsub pp.2 with
        | (fs1, .ok _) => processSessions fs1 root bsub rest
        | err => err
      | .str sn =>
        let bses := normSes sn
        let fs1 := fs.mkdirOk (root ++ [bsub, bses])
        match processModalities fs1 (root ++ [bsub, bses]) (bsub ++ "_" ++ bses) pp.2 with
        | (fs2, .ok _) => processSessions fs2 root bsub rest
        | err => err
      | _ => (fs, .error .attrError)
    | .arr _ => (fs, .error .typeError)
    | _ => (fs, .error .attrError)

/-- Resolution of the wildcard marker: a subject value equal to the
literal star string becomes a shallow copy of the cached previous
subject data; with no previous subject the copy of None is the
AttributeError of the source.  A cached value that is not a list or a
dict has no copy method either. -/
def resolveSessions (cache : Option JVal) (v : JVal) : Except PyErr JVal :=
  match v with
  | .str s =>
    if s = "*" then
      match cache with
      | none => .error .attrError
      | some c =>
        match c with
        | .arr xs => .ok (.arr xs)
        | .obj kvs => .ok (.obj kvs)
        | _ => .error .attrError
    else .ok v
  | _ => .ok v

/-- A single-session dict subject value gets a null session key injected
and is wrapped into a one-element list; everything else is unchanged.
The result is what the source caches for a following wildcard. -/
def wrapSingle : JVal → JVal
  | .obj kvs => .arr [.obj (dictUpdate kvs "session" .null)]
  | x => x

/-- The iteration Python performs over the (wrapped) subject value: a
list is taken as is, a string yields its characters, anything else is
not iterable. -/
def sessionList : JVal → Except PyErr (List JVal)
  | .arr xs => .ok xs
  | .str s => .ok (s.data.map (fun c => .str (String.mk [c])))
  | _ => .error .typeError

/-- The top-level subject loop of generate_bids_skeleton: normalize the
subject label, create the subject directory, resolve a wildcard against
the cache, wrap a single-session dict, cache the result for the next
subject, and process the session list. -/
def processSubjects (fs : FS) (root : FPath) (cache : Option JVal) :
    JObj → FS × Except PyErr Unit
  | [] => (fs, .ok ())
  | (subject, v) :: rest =>
    let bsub := normSub subject
    let fs1 := fs.mkdirOk (root ++ [bsub])
    match resolveSessions cache v with
    | .error e => (fs1, .error e)
    | .ok v1 =>
      let v2 := wrapSingle v1
      match sessionList v2 with
      | .error e => (fs1, .error e)
      | .ok ss =>
        match processSessions fs1 root bsub ss with
        | (fs2, .ok _) => processSubjects fs2 root (some v2) rest
        | err => err

/-- The default dataset description. -/
def defaultDescription : JVal :=
  .obj [("Name", .str "Default"), ("BIDSVersion", .str "1.6.0")]

/-- The description value generate_bids_skeleton writes: the top-level
dataset_description when present and not null, otherwise the default
(dict.pop defaults to None and the source tests the result against
None, so an explicit null also selects the default). -/
def descValue (d : Option JVal) : JVal :=
  match d with
  | none => defaultDescription
  | some .null => defaultDescription
  | some v => v

/-- generate_bids_skeleton for a dict configuration: deep copies become
value bindings in the pure embedding; create the target (which must not
exist), write the dataset description, process the subjects, and return
the pre-materialization structure.  On an error the filesystem mutated
so far is returned alongside it. -/
def generate_bids_skeleton (fs : FS) (target : FPath) (cfg : JObj) :
    FS × Except PyErr JObj :=
  match fs.mkdirParents target with
  | .error e => (fs, .error e)
  | .ok fs1 =>
    let pd := pyPop "dataset_description" cfg
    let fs2 := fs1.write (target ++ ["dataset_description.json"])
      (.data (.text (jsonDumps (descValue pd.1))))
    match processSubjects fs2 target none pd.2 with
    | (fs3, .ok _) => (fs3, .ok cfg)
    | (fs3, .error e) => (fs3, .error e)

/-- The name of a child of a directory: some name exactly when the path
is the directory plus one component. -/
def childName (root d : FPath) : Option String :=
  if root.isPrefixOf d && d.length == root.length + 1 then d.getLast? else none

/-- Modelled from the spec: the immediate subject directories under the
simulated-dataset root, over which subject-level archiving iterates. -/
def immediateSubjects (root : FPath) (fs : FS) : List String :=
  fs.dirs.filterMap (childName root)

/-- Modelled from the spec: the zip name for one subject scope. -/
def zipName (s vtag : String) : String := s ++ "_simbids-" ++ vtag ++ ".zip"

/-- Modelled from the spec: the entries of the zip for one subject, every
regular file of the subject subtree with the archive-internal path rooted
at simbids and the subject. -/
def zipEntriesFor (root : FPath) (s : String) (files : List (FPath × FData)) :
    List (FPath × SData) :=
  files.filterMap (fun f =>
    if (root ++ [s]).isPrefixOf f.1 then
      some (["simbids", s] ++ f.1.drop (root.length + 1), f.2.proj)
    else none)

/-- Modelled from the spec: archive one subject, writing the zip at the
parent output directory and then deleting the archived uncompressed
subtree. -/
def zipOneSubject (outDir : FPath) (vtag : String) (fs : FS) (s : String) : FS :=
  let root := outDir ++ ["simbids"]
  let fs1 := fs.write (outDir ++ [zipName s vtag]) (.zipArc (zipEntriesFor root s fs.files))
  { dirs := fs1.dirs.filter (fun d => !(root ++ [s]).isPrefixOf d),
    files := fs1.files.filter (fun f => !(root ++ [s]).isPrefixOf f.1) }

/-- Modelled from the spec: subject-granularity archiving, one zip per
immediate subject directory of the dataset root, each followed by the
deletion of the archived subtree. -/
def archiveSubjectLevel (outDir : FPath) (vtag : String) (fs : FS) : FS :=
  (immediateSubjects (outDir ++ ["simbids"]) fs).foldl (zipOneSubject outDir vtag) fs

/-- Modelled from the spec: the subject-and-session pairs of the dataset
root, over which session-level archiving iterates. -/
def sessionPairs (root : FPath) (fs : FS) : List (String × String) :=
  fs.dirs.filterMap (fun d =>
    if root.isPrefixOf d && d.length == root.length + 2 then
      match d.drop root.length with
      | [s, ses] => some (s, ses)
      | _ => none
    else none)

/-- Modelled from the spec: archive one subject-session pair. -/
def zipOneSession (outDir : FPath) (vtag : String) (fs : FS) (p : String × String) : FS :=
  let root := outDir ++ ["simbids"]
  fs.write (outDir ++ [p.1 ++ "_" ++ p.2 ++ "_simbids-" ++ vtag ++ ".zip"])
    (.zipArc (fs.files.filterMap (fun f =>
      if (root ++ [p.1, p.2]).isPrefixOf f.1 then
        some (["simbids", p.1, p.2] ++ f.1.drop (root.length + 2), f.2.proj)
      else none)))

/-- Modelled from the spec: session-granularity archiving, one zip per
subject-session pair, and afterwards the removal of the entire flat
dataset tree. -/
def archiveSessionLevel (outDir : FPath) (vtag : String) (fs : FS) : FS :=
  let root := outDir ++ ["simbids"]
  let fs1 := (sessionPairs root fs).foldl (zipOneSession outDir vtag) fs
  { dirs := fs1.dirs.filter (fun d => !root.isPrefixOf d),
    files := fs1.files.filter (fun f => !root.isPrefixOf f.1) }

/-- Python str.endswith, as a check on the character sequence. -/
def strEndsWith (s t : String) : Bool :=
  t.data.isSuffixOf s.data

/-- The fill step of simulate_dataset: every file under the dataset
directory whose final component ends in the imaging extension is
overwritten with ten mebibytes of random bytes (only the byte count is
modelled; the content is random). -/
def fillStep (dsDir : FPath) (fs : FS) : FS :=
  { fs with
    files := fs.files.map (fun f =>
      if dsDir.isPrefixOf f.1 && strEndsWith (f.1.getLastD "") ".nii.gz" then
        (f.1, .data (.bin 10485760))
      else f) }

/-- simulate_dataset.  The configuration resolution is abstracted to an
already-decoded skeleton (none models the file-not-found failure of the
source lookup).  The zip-level parameter, its validation and the calls
into the archiver are Modelled from the spec and from the tests of the
repository (test_utils_bids.py): they are absent from the checked-in
simulate_dataset, which the tests nonetheless call with a zip level.
The remaining steps (materialize under simbids, then fill) follow the
source. -/
def simulate_dataset (fs : FS) (outputDir : FPath) (config : Option JObj)
    (zipLevel : String) (fillFiles : Bool) (vtag : String) :
    FS × Except PyErr FPath :=
  if zipLevel = "none" ∨ zipLevel = "subject" ∨ zipLevel = "session" then
    match config with
    | none => (fs, .error (.fileNotFound "YAML file not found"))
    | some skel =>
      let dsDir := outputDir ++ ["simbids"]
      match generate_bids_skeleton fs dsDir skel with
      | (fs1, .error e) => (fs1, .error e)
      | (fs1, .ok _) =>
        let fs2 := if fillFiles then fillStep dsDir fs1 else fs1
        let fs3 :=
          if zipLevel = "subject" then archiveSubjectLevel outputDir vtag fs2
          else if zipLevel = "session" then archiveSessionLevel outputDir vtag fs2
          else fs2
        (fs3, .ok outputDir)
  else (fs, .error (.valueError ("Invalid zip level: " ++ zipLevel)))

/-- The data file name built for one entry: the prefix, the formatted
remaining entities, an underscore, the suffix and the extension. -/
def entryFileName (pfx : String) (kvs : JObj) (sv : JVal) (es : String) : String :=
  pfx ++ combine_entities (pyPop "suffix" (pyPop "extension" (pyPop "metadata" kvs).2).2).2 ++
    "_" ++ pyStr sv ++ pyStr (.str es)

/-- The files of a listing whose path has at most the given number of
components: the materializer only ever writes deeper than the dataset
descriptor, so this fragment of the listing is stable under it. -/
def shortFiles (k : Nat) (l : List (FPath × FData)) : List (FPath × FData) :=
  l.filter (fun f => decide (f.1.length ≤ k))

/-- Every binary file of a listing is empty: the invariant of the
materializer, which creates data files only by touch and writes only
JSON text. -/
def binsEmpty (l : List (FPath × FData)) : Prop :=
  ∀ p n, (p, FData.data (.bin n)) ∈ l → n = 0

/-- A concrete materialized dataset used to witness the archiver claim:
a descriptor and one subject with one data file. -/
def c2fs : FS :=
  ⟨[["o", "simbids"], ["o", "simbids", "sub-01"], ["o", "simbids", "sub-01", "anat"]],
   [(["o", "simbids", "dataset_description.json"], .data (.text "d")),
    (["o", "simbids", "sub-01", "anat", "sub-01_T1w.nii.gz"], .data (.bin 0))]⟩

/-! Basic facts about the filesystem operations. -/

theorem FS.touch_dirs (fs : FS) (p : FPath) : (fs.touch p).dirs = fs.dirs := by
  unfold FS.touch; split <;> rfl

theorem FS.write_dirs (fs : FS) (p : FPath) (d : FData) : (fs.write p d).dirs = fs.dirs := by
  unfold FS.write; split <;> rfl

theorem FS.mkdirOk_files (fs : FS) (p : FPath) : (fs.mkdirOk p).files = fs.files := by
  unfold FS.mkdirOk; split <;> rfl

theorem FS.mkdirOk_mem (fs : FS) (p : FPath) : p ∈ (fs.mkdirOk p).dirs := by
  unfold FS.mkdirOk
  split
  · next h =>
    obtain ⟨x, hx, he⟩ := List.any_eq_true.mp h
    exact (beq_iff_eq.mp he) ▸ hx
  · simp

theorem FS.mkdirOk_dirs_mono (fs : FS) (p d : FPath) (h : d ∈ fs.dirs) :
    d ∈ (fs.mkdirOk p).dirs := by
  unfold FS.mkdirOk
  split
  · exact h
  · exact List.mem_append_left _ h

theorem foldl_mkdirOk_files (l : List FPath) (fs : FS) :
    (l.foldl FS.mkdirOk fs).files = fs.files := by
  induction l generalizing fs with
  | nil => rfl
  | cons a rest ih => simpa [List.foldl_cons, FS.mkdirOk_files] using ih (fs.mkdirOk a)

theorem foldl_mkdirOk_dirs_mono (l : List FPath) (fs : FS) (d : FPath) (h : d ∈ fs.dirs) :
    d ∈ (l.foldl FS.mkdirOk fs).dirs := by
  induction l generalizing fs with
  | nil => exact h
  | cons a rest ih => exact ih (fs.mkdirOk a) (FS.mkdirOk_dirs_mono fs a d h)

theorem foldl_mkdirOk_mem (l : List FPath) (fs : FS) (p : FPath) (h : p ∈ l) :
    p ∈ (l.foldl FS.mkdirOk fs).dirs := by
  induction l generalizing fs with
  | nil => cases h
  | cons a rest ih =>
    rcases List.mem_cons.mp h with rfl | hm
    · exact foldl_mkdirOk_dirs_mono rest (fs.mkdirOk p) p (FS.mkdirOk_mem fs p)
    · exact ih (fs.mkdirOk a) hm

theorem FS.write_self_mem (fs : FS) (p : FPath) (d : FData) :
    (p, d) ∈ (fs.write p d).files := by
  unfold FS.write
  split
  · next h =>
    obtain ⟨x, hx, he⟩ := List.any_eq_true.mp h
    refine List.mem_map.mpr ⟨x, hx, ?_⟩
    simp [he]
  · simp

theorem FS.mkdirParents_files (fs fs' : FS) (p : FPath) (h : fs.mkdirParents p = .ok fs') :
    fs'.files = fs.files := by
  unfold FS.mkdirParents at h
  split at h
  · cases h
  · cases h
    exact foldl_mkdirOk_files _ fs

theorem FS.mkdirParents_mem (fs fs' : FS) (p : FPath) (hp : p ≠ [])
    (h : fs.mkdirParents p = .ok fs') : p ∈ fs'.dirs := by
  unfold FS.mkdirParents at h
  split at h
  · cases h
  · cases h
    refine foldl_mkdirOk_mem _ fs p ?_
    refine List.mem_map.mpr ⟨p.length - 1, List.mem_range.mpr ?_, ?_⟩
    · have := List.length_pos.mpr hp
      omega
    · have hl : p.length - 1 + 1 = p.length := by
        have := List.length_pos.mpr hp
        omega
      rw [hl, List.take_length]

/-- Claim C1: calling the dataset simulation orchestrator with a
granularity value other than none, subject or session fails with the
invalid-configuration ValueError of the tests, and the filesystem is
returned exactly as it was: no partial tree is written. -/
theorem spec_C1 (fs : FS) (outputDir : FPath) (config : Option JObj)
    (zipLevel : String) (fillFiles : Bool) (vtag : String)
    (h1 : zipLevel ≠ "none") (h2 : zipLevel ≠ "subject") (h3 : zipLevel ≠ "session") :
    simulate_dataset fs outputDir config zipLevel fillFiles vtag =
      (fs, .error (.valueError ("Invalid zip level: " ++ zipLevel))) := by
  unfold simulate_dataset
  rw [if_neg]
  rintro (h | h | h)
  · exact h1 h
  · exact h2 h
  · exact h3 h

/-- Witness for C1 at the concrete granularity bogus. -/
theorem spec_C1_w :
    simulate_dataset FS.empty [] (some [("01", JVal.obj [("anat", JVal.obj [("suffix", JVal.str "T1w")])])])
      "bogus" false "1-0-1" =
        (FS.empty, .error (.valueError ("Invalid zip level: " ++ "bogus"))) :=
  spec_C1 FS.empty [] _ "bogus" false "1-0-1" (by decide) (by decide) (by decide)

/-- Claim C8: when the target path already exists, materialization fails
with the file-exists error and the filesystem is returned unchanged:
nothing is merged into or overwritten in the existing tree. -/
theorem spec_C8 (fs : FS) (target : FPath) (cfg : JObj) (h : target ∈ fs.dirs) :
    generate_bids_skeleton fs target cfg = (fs, .error .fileExists) := by
  unfold generate_bids_skeleton FS.mkdirParents
  rw [if_pos]
  exact List.any_eq_true.mpr ⟨target, h, beq_self_eq_true target⟩

/-- Witness for C8 at a concrete pre-existing target directory. -/
theorem spec_C8_w :
    generate_bids_skeleton ⟨[["simbids"]], []⟩ ["simbids"]
      [("01", JVal.obj [("anat", JVal.obj [("suffix", JVal.str "T1w")])])] =
        (⟨[["simbids"]], []⟩, .error .fileExists) :=
  spec_C8 ⟨[["simbids"]], []⟩ ["simbids"] _ (by simp)

/-- Claim C5: the materializer never mutates the caller's skeleton (the
embedding is pure because every Python-side mutation acts on a deep
copy), the residual returned on success is value-equal to the original
decoded structure taken before materialization, and two calls with
structurally identical inputs produce identical results. -/
theorem spec_C5 :
    (∀ fs target cfg r, (generate_bids_skeleton fs target cfg).2 = .ok r → r = cfg) ∧
    (∀ fs target cfg1 cfg2, cfg1 = cfg2 →
      generate_bids_skeleton fs target cfg1 = generate_bids_skeleton fs target cfg2) := by
  constructor
  · intro fs target cfg r h
    unfold generate_bids_skeleton at h
    split at h
    · cases h
    · dsimp only at h
      split at h
      · cases h
        rfl
      · cases h
  · intro fs target cfg1 cfg2 h
    rw [h]

/-- Witness for C5: a concrete successful materialization returns the
input skeleton itself as the residual. -/
theorem spec_C5_w :
    ([("01", JVal.obj [("anat", JVal.obj [("suffix", JVal.str "T1w")])])] : JObj) =
      [("01", JVal.obj [("anat", JVal.obj [("suffix", JVal.str "T1w")])])] :=
  spec_C5.1 FS.empty ["simbids"] _ _ (by rfl)

/-- Claim C4: a subject entry after the first that maps to the literal
wildcard is materialized by running the session processor on exactly the
session list the immediately preceding subject was materialized from,
with only the subject prefix argument substituted (first conjunct), and
a wildcard with no preceding subject fails, right after the subject
directory creation, with the attribute error of copying None (second
conjunct). -/
theorem spec_C4 :
    (∀ (fs : FS) (root : FPath) (cache : Option JVal) (n1 : String) (v1 : JVal)
       (n2 : String) (rest : JObj) (v1' : JVal) (ss : List JVal) (fs2 : FS),
      resolveSessions cache v1 = .ok v1' →
      wrapSingle v1' = .arr ss →
      processSessions (fs.mkdirOk (root ++ [normSub n1])) root (normSub n1) ss = (fs2, .ok ()) →
      processSubjects fs root cache ((n1, v1) :: (n2, .str "*") :: rest) =
        (match processSessions (fs2.mkdirOk (root ++ [normSub n2])) root (normSub n2) ss with
         | (fs3, .ok _) => processSubjects fs3 root (some (.arr ss)) rest
         | (fs3, .error e) => (fs3, .error e))) ∧
    (∀ (fs : FS) (root : FPath) (n : String) (rest : JObj),
      processSubjects fs root none ((n, .str "*") :: rest) =
        (fs.mkdirOk (root ++ [normSub n]), .error .attrError)) := by
  constructor
  · intro fs root cache n1 v1 n2 rest v1' ss fs2 h1 h2 h3
    simp only [processSubjects]
    rw [h1]
    dsimp only
    rw [h2]
    dsimp only [sessionList]
    rw [h3]
    simp only [processSubjects]
    dsimp only [resolveSessions, wrapSingle, sessionList]
    rw [if_pos rfl]
    dsimp only
    rcases hps : processSessions (fs2.mkdirOk (root ++ [normSub n2])) root (normSub n2) ss
      with ⟨fs3, r⟩
    cases r <;> rfl
  · intro fs root n rest
    simp only [processSubjects]
    dsimp only [resolveSessions]
    rw [if_pos rfl]

/-- Witness for C4: a concrete two-subject skeleton whose second subject
is the wildcard, with an empty session list, and a concrete wildcard
with no predecessor. -/
theorem spec_C4_w :
    (processSubjects FS.empty ["o"] none [("01", .arr []), ("02", .str "*")] =
      (match processSessions ((FS.mkdirOk FS.empty (["o"] ++ [normSub "01"])).mkdirOk
          (["o"] ++ [normSub "02"])) ["o"] (normSub "02") [] with
       | (fs3, .ok _) => processSubjects fs3 ["o"] (some (.arr [])) []
       | (fs3, .error e) => (fs3, .error e))) ∧
    (processSubjects FS.empty ["o"] none [("01", .str "*")] =
      (FS.mkdirOk FS.empty (["o"] ++ [normSub "01"]), .error .attrError)) :=
  ⟨spec_C4.1 FS.empty ["o"] none "01" (.arr []) "02" [] (.arr []) []
      (FS.mkdirOk FS.empty (["o"] ++ [normSub "01"])) rfl rfl rfl,
   spec_C4.2 FS.empty ["o"] "01" []⟩

/-- Claim C10: a wildcard subject with no preceding subject fails, but
not atomically: when the attribute error is raised the dataset root, the
dataset_description.json file and the normalized subject directory have
already been created, because the subject directory is made before the
wildcard value is examined. -/
theorem spec_C10 (out : FPath) (s : String) (rest : JObj)
    (hs : s ≠ "dataset_description") (hout : out ≠ []) :
    ∃ fsf, generate_bids_skeleton FS.empty out ((s, .str "*") :: rest) =
        (fsf, .error .attrError) ∧
      out ∈ fsf.dirs ∧
      (∃ d, (out ++ ["dataset_description.json"], d) ∈ fsf.files) ∧
      out ++ [normSub s] ∈ fsf.dirs := by
  unfold generate_bids_skeleton
  rcases hmk : FS.empty.mkdirParents out with e | fs1
  · exfalso
    unfold FS.mkdirParents at hmk
    simp [FS.empty] at hmk
  · dsimp only
    rw [pyPop]
    rw [if_neg hs]
    dsimp only
    simp only [processSubjects]
    dsimp only [resolveSessions]
    rw [if_pos rfl]
    dsimp only
    refine ⟨_, rfl, ?_, ?_, ?_⟩
    · rw [FS.mkdirOk]
      have hmem : out ∈ fs1.dirs := FS.mkdirParents_mem FS.empty fs1 out hout hmk
      have hmem2 : out ∈ (fs1.write (out ++ ["dataset_description.json"])
          (.data (.text (jsonDumps (descValue (pyPop "dataset_description" rest).1))))).dirs := by
        rw [FS.write_dirs]
        exact hmem
      split
      · exact hmem2
      · exact List.mem_append_left _ hmem2
    · exact ⟨_, by
        rw [FS.mkdirOk_files]
        exact FS.write_self_mem fs1 _ _⟩
    · exact FS.mkdirOk_mem _ _

/-- Witness for C10 at a concrete output path and subject label. -/
theorem spec_C10_w :
    ∃ fsf, generate_bids_skeleton FS.empty ["simbids"] [("01", .str "*")] =
        (fsf, .error .attrError) ∧
      ["simbids"] ∈ fsf.dirs ∧
      (∃ d, (["simbids"] ++ ["dataset_description.json"], d) ∈ fsf.files) ∧
      ["simbids"] ++ [normSub "01"] ∈ fsf.dirs :=
  spec_C10 ["simbids"] "01" [] (by decide) (by decide)

/-- Claim C3: materializing the one-subject anat T1w skeleton through
the orchestrator yields exactly the dataset descriptor
simbids/dataset_description.json and the data file
simbids/sub-01/anat/sub-01_T1w.nii.gz, and nothing else. -/
theorem spec_C3 :
    simulate_dataset FS.empty []
      (some [("01", JVal.obj [("anat", JVal.obj [("suffix", JVal.str "T1w")])])])
      "none" false "1-0-1" =
    (⟨[["simbids"], ["simbids", "sub-01"], ["simbids", "sub-01", "anat"]],
      [(["simbids", "dataset_description.json"], .data (.text (jsonDumps defaultDescription))),
       (["simbids", "sub-01", "anat", "sub-01_T1w.nii.gz"], .data (.bin 0))]⟩, .ok []) := by
  rfl

theorem FS.touch_files_fresh (fs : FS) (p : FPath)
    (h : fs.files.any (fun f => f.1 == p) = false) :
    (fs.touch p).files = fs.files ++ [(p, .data (.bin 0))] := by
  unfold FS.touch
  rw [if_neg (by simp [h])]

theorem FS.mem_write (fs : FS) (p q : FPath) (v d : FData)
    (h : (q, d) ∈ (fs.write p v).files) : (q, d) ∈ fs.files ∨ q = p := by
  unfold FS.write at h
  split at h
  · obtain ⟨f, hf, he⟩ := List.mem_map.mp h
    by_cases hp : f.1 == p
    · right
      rw [if_pos hp] at he
      exact (Prod.mk.injEq _ _ _ _ ▸ he.symm).1.symm ▸ rfl
    · left
      rw [if_neg hp] at he
      exact he ▸ hf
  · rcases List.mem_append.mp h with hm | hm
    · exact Or.inl hm
    · right
      cases List.mem_singleton.mp hm
      rfl

theorem FS.mem_touch (fs : FS) (p q : FPath) (d : FData)
    (h : (q, d) ∈ (fs.touch p).files) : (q, d) ∈ fs.files ∨ q = p := by
  unfold FS.touch at h
  split at h
  · exact Or.inl h
  · rcases List.mem_append.mp h with hm | hm
    · exact Or.inl hm
    · right
      cases List.mem_singleton.mp hm
      rfl

/-- Counterexample to claim C6 as stated: an entry that carries the
metadata key with an explicit null value produces no sidecar, because the
source tests the popped value against None; the full tree of the run is
the descriptor and the data file only. -/
theorem spec_C6_cex :
    ((pyPop "metadata" [("suffix", JVal.str "T1w"), ("metadata", JVal.null)]).1).isSome = true ∧
    (generate_bids_skeleton FS.empty ["o"]
      [("01", .obj [("anat", .obj [("suffix", .str "T1w"), ("metadata", JVal.null)])])]).1.files =
      [(["o", "dataset_description.json"], .data (.text (jsonDumps defaultDescription))),
       (["o", "sub-01", "anat", "sub-01_T1w.nii.gz"], .data (.bin 0))] :=
  ⟨rfl, rfl⟩

/-- Claim C6 as amended: for a fresh data path and sidecar path, an entry
with a suffix and a string extension writes a sidecar (at the data file
name with the extension substring replaced by .json) if and only if it
carried a metadata key with a non-null value; the sidecar content is
exactly the metadata serialized by json.dumps, and nothing but the data
file and the sidecar is added. -/
theorem spec_C6_amended (fs : FS) (modPath : FPath) (pfx : String) (kvs : JObj)
    (mv sv : JVal) (es : String)
    (hmv : ((pyPop "metadata" kvs).1).getD .null = mv)
    (hsv : (pyPop "suffix" (pyPop "extension" (pyPop "metadata" kvs).2).2).1 = some sv)
    (hes : ((pyPop "extension" (pyPop "metadata" kvs).2).1).getD (.str ".nii.gz") = .str es)
    (hfresh : fs.files.any (fun f => f.1 == modPath ++ [entryFileName pfx kvs sv es]) = false)
    (hside : ∀ f ∈ fs.files,
      f.1 ≠ modPath ++ [pyReplace (entryFileName pfx kvs sv es) es ".json"]) :
    ∃ fs', processEntry fs modPath pfx (.obj kvs) = (fs', .ok ()) ∧
      ((∃ c, (modPath ++ [pyReplace (entryFileName pfx kvs sv es) es ".json"],
          FData.data (.text c)) ∈ fs'.files) ↔ mv ≠ .null) ∧
      (mv ≠ .null →
        (modPath ++ [pyReplace (entryFileName pfx kvs sv es) es ".json"],
          FData.data (.text (jsonDumps mv))) ∈ fs'.files) ∧
      (∀ q d, (q, d) ∈ fs'.files → (q, d) ∈ fs.files ∨
        q = modPath ++ [entryFileName pfx kvs sv es] ∨
        q = modPath ++ [pyReplace (entryFileName pfx kvs sv es) es ".json"]) := by
  have hname : pfx ++ combine_entities
      (pyPop "suffix" (pyPop "extension" (pyPop "metadata" kvs).2).2).2 ++ "_" ++
      pyStr sv ++ pyStr (.str es) = entryFileName pfx kvs sv es := rfl
  dsimp only [processEntry]
  rw [hsv]
  dsimp only
  rw [hmv, hes, hname]
  cases mv with
  | null =>
    refine ⟨_, rfl, ?_, ?_, ?_⟩
    · constructor
      · rintro ⟨c, hc⟩
        rcases FS.mem_touch _ _ _ _ hc with hm | hm
        · exact absurd rfl (hside _ hm)
        · exfalso
          rw [FS.touch_files_fresh fs _ hfresh] at hc
          rcases List.mem_append.mp hc with hm2 | hm2
          · exact absurd rfl (hside _ hm2)
          · have h3 := congrArg Prod.snd (List.mem_singleton.mp hm2)
            simp at h3
      · intro hne
        exact absurd rfl hne
    · intro hne
      exact absurd rfl hne
    · intro q d hq
      rcases FS.mem_touch _ _ _ _ hq with hm | hm
      · exact Or.inl hm
      · exact Or.inr (Or.inl hm)
  | _ =>
    refine ⟨_, rfl, ?_, ?_, ?_⟩
    · exact ⟨fun _ => by simp, fun _ => ⟨jsonDumps _, FS.write_self_mem _ _ _⟩⟩
    · intro _
      exact FS.write_self_mem _ _ _
    · intro q d hq
      rcases FS.mem_write _ _ _ _ _ hq with hm | hm
      · rcases FS.mem_touch _ _ _ _ hm with hm2 | hm2
        · exact Or.inl hm2
        · exact Or.inr (Or.inl hm2)
      · exact Or.inr (Or.inr hm)

/-- Witness for the amended C6 at a concrete entry carrying metadata. -/
theorem spec_C6_amended_w :
    ∃ fs', processEntry FS.empty ["o", "sub-01", "anat"] "sub-01"
        (.obj [("suffix", JVal.str "T1w"), ("metadata", JVal.obj [("A", JVal.num 1)])]) =
        (fs', .ok ()) ∧
      ((∃ c, (["o", "sub-01", "anat"] ++
          [pyReplace (entryFileName "sub-01"
            [("suffix", JVal.str "T1w"), ("metadata", JVal.obj [("A", JVal.num 1)])]
            (JVal.str "T1w") ".nii.gz") ".nii.gz" ".json"],
          FData.data (.text c)) ∈ fs'.files) ↔ JVal.obj [("A", JVal.num 1)] ≠ .null) ∧
      (JVal.obj [("A", JVal.num 1)] ≠ .null →
        (["o", "sub-01", "anat"] ++
          [pyReplace (entryFileName "sub-01"
            [("suffix", JVal.str "T1w"), ("metadata", JVal.obj [("A", JVal.num 1)])]
            (JVal.str "T1w") ".nii.gz") ".nii.gz" ".json"],
          FData.data (.text (jsonDumps (JVal.obj [("A", JVal.num 1)])))) ∈ fs'.files) ∧
      (∀ q d, (q, d) ∈ fs'.files → (q, d) ∈ FS.empty.files ∨
        q = ["o", "sub-01", "anat"] ++
          [entryFileName "sub-01"
            [("suffix", JVal.str "T1w"), ("metadata", JVal.obj [("A", JVal.num 1)])]
            (JVal.str "T1w") ".nii.gz"] ∨
        q = ["o", "sub-01", "anat"] ++
          [pyReplace (entryFileName "sub-01"
            [("suffix", JVal.str "T1w"), ("metadata", JVal.obj [("A", JVal.num 1)])]
            (JVal.str "T1w") ".nii.gz") ".nii.gz" ".json"]) :=
  spec_C6_amended FS.empty ["o", "sub-01", "anat"] "sub-01"
    [("suffix", JVal.str "T1w"), ("metadata", JVal.obj [("A", JVal.num 1)])]
    (JVal.obj [("A", JVal.num 1)]) (JVal.str "T1w") ".nii.gz"
    rfl rfl rfl rfl (by simp [FS.empty])

theorem shortFiles_touch_long (fs : FS) (p : FPath) (k : Nat) (hp : k < p.length) :
    shortFiles k (fs.touch p).files = shortFiles k fs.files := by
  unfold FS.touch
  split
  · rfl
  · unfold shortFiles
    rw [List.filter_append]
    have : List.filter (fun f => decide (f.1.length ≤ k)) [(p, FData.data (.bin 0))] = [] := by
      simp
      omega
    rw [this, List.append_nil]

theorem shortFiles_write_long (fs : FS) (p : FPath) (d : FData) (k : Nat)
    (hp : k < p.length) :
    shortFiles k (fs.write p d).files = shortFiles k fs.files := by
  unfold FS.write
  split
  · show shortFiles k (fs.files.map _) = _
    unfold shortFiles
    induction fs.files with
    | nil => rfl
    | cons f t ih =>
      rw [List.map_cons, List.filter_cons, List.filter_cons]
      by_cases hf : f.1 == p
      · have hfp : f.1 = p := beq_iff_eq.mp hf
        rw [if_pos hf]
        have hlen1 : (decide ((p, d).1.length ≤ k)) = false := by
          simp only [decide_eq_false_iff_not]
          show ¬ p.length ≤ k
          omega
        have hlen2 : (decide (f.1.length ≤ k)) = false := by
          simp only [decide_eq_false_iff_not, hfp]
          omega
        rw [hlen1, hlen2]
        simpa using ih
      · rw [if_neg hf]
        by_cases hdec : f.1.length ≤ k
        · rw [if_pos (by simpa using hdec), if_pos (by simpa using hdec), ih]
        · rw [if_neg (by simpa using hdec), if_neg (by simpa using hdec)]
          exact ih
  · unfold shortFiles
    rw [List.filter_append]
    have : List.filter (fun f => decide (f.1.length ≤ k)) [(p, d)] = [] := by
      rw [List.filter_cons]
      rw [if_neg (by simpa using (by omega : ¬ p.length ≤ k))]
      rfl
    rw [this, List.append_nil]

theorem shortFiles_processEntry (fs : FS) (modPath : FPath) (pfx : String) (e : JVal)
    (k : Nat) (hk : k < modPath.length + 1) :
    shortFiles k ((processEntry fs modPath pfx e).1).files = shortFiles k fs.files := by
  cases e with
  | obj kvs0 =>
    dsimp only [processEntry]
    cases hsuf : (pyPop "suffix" (pyPop "extension" (pyPop "metadata" kvs0).2).2).1 with
    | none => rfl
    | some sv =>
      dsimp only
      have hlen : ∀ name : String, k < (modPath ++ [name]).length := by
        intro name
        rw [List.length_append]
        simpa using hk
      cases hmv : ((pyPop "metadata" kvs0).1).getD .null with
      | null => exact shortFiles_touch_long fs _ k (hlen _)
      | bool b =>
        cases hev : ((pyPop "extension" (pyPop "metadata" kvs0).2).1).getD (.str ".nii.gz") <;>
          first
            | exact shortFiles_touch_long fs _ k (hlen _)
            | rw [shortFiles_write_long _ _ _ k (hlen _), shortFiles_touch_long fs _ k (hlen _)]
      | num n =>
        cases hev : ((pyPop "extension" (pyPop "metadata" kvs0).2).1).getD (.str ".nii.gz") <;>
          first
            | exact shortFiles_touch_long fs _ k (hlen _)
            | rw [shortFiles_write_long _ _ _ k (hlen _), shortFiles_touch_long fs _ k (hlen _)]
      | str s =>
        cases hev : ((pyPop "extension" (pyPop "metadata" kvs0).2).1).getD (.str ".nii.gz") <;>
          first
            | exact shortFiles_touch_long fs _ k (hlen _)
            | rw [shortFiles_write_long _ _ _ k (hlen _), shortFiles_touch_long fs _ k (hlen _)]
      | arr xs =>
        cases hev : ((pyPop "extension" (pyPop "metadata" kvs0).2).1).getD (.str ".nii.gz") <;>
          first
            | exact shortFiles_touch_long fs _ k (hlen _)
            | rw [shortFiles_write_long _ _ _ k (hlen _), shortFiles_touch_long fs _ k (hlen _)]
      | obj kvs =>
        cases hev : ((pyPop "extension" (pyPop "metadata" kvs0).2).1).getD (.str ".nii.gz") <;>
          first
            | exact shortFiles_touch_long fs _ k (hlen _)
            | rw [shortFiles_write_long _ _ _ k (hlen _), shortFiles_touch_long fs _ k (hlen _)]
  | arr xs => rfl
  | null => rfl
  | bool b => rfl
  | num n => rfl
  | str s => rfl

theorem shortFiles_processFiles (modPath : FPath) (pfx : String) (l : List JVal)
    (k : Nat) (hk : k < modPath.length + 1) :
    ∀ fs : FS, shortFiles k ((processFiles fs modPath pfx l).1).files = shortFiles k fs.files := by
  induction l with
  | nil => intro fs; rfl
  | cons e rest ih =>
    intro fs
    dsimp only [processFiles]
    rcases hpe : processEntry fs modPath pfx e with ⟨fs1, r⟩
    have he : shortFiles k fs1.files = shortFiles k fs.files := by
      have := shortFiles_processEntry fs modPath pfx e k hk
      rw [hpe] at this
      exact this
    cases r with
    | ok u => rw [ih fs1, he]
    | error er => exact he

theorem shortFiles_processModalities (curr : FPath) (pfx : String) (l : JObj)
    (k : Nat) (hk : k < curr.length + 2) :
    ∀ fs : FS,
      shortFiles k ((processModalities fs curr pfx l).1).files = shortFiles k fs.files := by
  induction l with
  | nil => intro fs; rfl
  | cons mf rest ih =>
    intro fs
    rcases mf with ⟨modality, files⟩
    dsimp only [processModalities]
    have hmk : (fs.mkdirOk (curr ++ [modality])).files = fs.files := FS.mkdirOk_files fs _
    cases hel : entryList files with
    | error e => dsimp only; rw [hmk]
    | ok fl =>
      dsimp only
      have hk1 : k < (curr ++ [modality]).length + 1 := by
        rw [List.length_append]
        simpa using hk
      rcases hpf : processFiles (fs.mkdirOk (curr ++ [modality])) (curr ++ [modality]) pfx fl
        with ⟨fs2, r⟩
      have hf : shortFiles k fs2.files = shortFiles k fs.files := by
        have := shortFiles_processFiles (curr ++ [modality]) pfx fl k hk1
          (fs.mkdirOk (curr ++ [modality]))
        rw [hpf] at this
        dsimp only at this
        rw [this, hmk]
      cases r with
      | ok u => rw [ih fs2, hf]
      | error er => exact hf

theorem shortFiles_processSessions (root : FPath) (bsub : String) (l : List JVal)
    (k : Nat) (hk : k < root.length + 3) :
    ∀ fs : FS,
      shortFiles k ((processSessions fs root bsub l).1).files = shortFiles k fs.files := by
  induction l with
  | nil => intro fs; rfl
  | cons s rest ih =>
    intro fs
    cases s with
    | obj kvs0 =>
      dsimp only [processSessions]
      cases hses : ((pyPop "session" kvs0).1).getD .null with
      | null =>
        dsimp only
        have hk1 : k < (root ++ [bsub]).length + 2 := by
          rw [List.length_append]
          simpa using hk
        rcases hpm : processModalities fs (root ++ [bsub]) bsub (pyPop "session" kvs0).2
          with ⟨fs1, r⟩
        have hm : shortFiles k fs1.files = shortFiles k fs.files := by
          have := shortFiles_processModalities (root ++ [bsub]) bsub
            (pyPop "session" kvs0).2 k hk1 fs
          rw [hpm] at this
          exact this
        cases r with
        | ok u => rw [ih fs1, hm]
        | error er => exact hm
      | str sn =>
        dsimp only
        have hk1 : k < (root ++ [bsub, normSes sn]).length + 2 := by
          rw [List.length_append]
          simp only [List.length_cons, List.length_nil]
          omega
        rcases hpm : processModalities (fs.mkdirOk (root ++ [bsub, normSes sn]))
            (root ++ [bsub, normSes sn]) (bsub ++ "_" ++ normSes sn) (pyPop "session" kvs0).2
          with ⟨fs1, r⟩
        have hm : shortFiles k fs1.files = shortFiles k fs.files := by
          have := shortFiles_processModalities (root ++ [bsub, normSes sn])
            (bsub ++ "_" ++ normSes sn) (pyPop "session" kvs0).2 k hk1
            (fs.mkdirOk (root ++ [bsub, normSes sn]))
          rw [hpm] at this
          rw [this, FS.mkdirOk_files]
        cases r with
        | ok u => rw [ih fs1, hm]
        | error er => exact hm
      | bool b => rfl
      | num n => rfl
      | arr xs => rfl
      | obj kvs => rfl
    | arr xs => rfl
    | null => rfl
    | bool b => rfl
    | num n => rfl
    | str s2 => rfl

theorem shortFiles_processSubjects (root : FPath) (l : JObj) (k : Nat)
    (hk : k < root.length + 3) :
    ∀ (fs : FS) (cache : Option JVal),
      shortFiles k ((processSubjects fs root cache l).1).files = shortFiles k fs.files := by
  induction l with
  | nil => intro fs cache; rfl
  | cons sv rest ih =>
    intro fs cache
    rcases sv with ⟨subject, v⟩
    dsimp only [processSubjects]
    have hmk : (fs.mkdirOk (root ++ [normSub subject])).files = fs.files :=
      FS.mkdirOk_files fs _
    cases hrv : resolveSessions cache v with
    | error e => dsimp only; rw [hmk]
    | ok v1 =>
      dsimp only
      cases hsl : sessionList (wrapSingle v1) with
      | error e => dsimp only; rw [hmk]
      | ok ss =>
        dsimp only
        rcases hps : processSessions (fs.mkdirOk (root ++ [normSub subject])) root
            (normSub subject) ss with ⟨fs2, r⟩
        have hs : shortFiles k fs2.files = shortFiles k fs.files := by
          have := shortFiles_processSessions root (normSub subject) ss k hk
            (fs.mkdirOk (root ++ [normSub subject]))
          rw [hps] at this
          dsimp only at this
          rw [this, hmk]
        cases r with
        | ok u => rw [ih fs2 (some (wrapSingle v1)), hs]
        | error er => exact hs

theorem filter_path_shortFiles (k : Nat) (l : List (FPath × FData)) (q : FPath)
    (hq : q.length ≤ k) :
    (shortFiles k l).filter (fun f => f.1 == q) = l.filter (fun f => f.1 == q) := by
  unfold shortFiles
  induction l with
  | nil => rfl
  | cons f t ih =>
    rw [List.filter_cons, List.filter_cons]
    by_cases hfq : f.1 == q
    · have hfq' : f.1 = q := beq_iff_eq.mp hfq
      have hlen : (decide (f.1.length ≤ k)) = true := by
        simp only [decide_eq_true_eq, hfq']
        exact hq
      rw [hlen, if_pos rfl, List.filter_cons, if_pos hfq, ih, if_pos hfq]
    · by_cases hlen : f.1.length ≤ k
      · rw [if_pos (by simpa using hlen), List.filter_cons, if_neg (by simpa using hfq),
          if_neg (by simpa using hfq), ih]
      · rw [if_neg (by simpa using hlen), if_neg (by simpa using hfq), ih]

/-- Counterexample to claim C9 as stated: the descriptor is written by
json.dumps without indentation, not as the indented pretty rendering the
repository uses where it does pretty-print; and a skeleton whose
top-level dataset_description is present but null gets the default
written, not its own value. -/
theorem spec_C9_cex :
    (generate_bids_skeleton FS.empty ["o"]
      [("dataset_description", JVal.null),
       ("01", .obj [("anat", .obj [("suffix", .str "T1w")])])]).1.files =
      [(["o", "dataset_description.json"], .data (.text (jsonDumps defaultDescription))),
       (["o", "sub-01", "anat", "sub-01_T1w.nii.gz"], .data (.bin 0))] ∧
    jsonDumps defaultDescription ≠ jsonPretty 0 defaultDescription ∧
    jsonDumps defaultDescription ≠ jsonDumps JVal.null :=
  ⟨rfl, by decide, by decide⟩

/-- Claim C9 as amended: for every materialization into a fresh target,
dataset_description.json is written exactly once at the dataset root,
with content the single-line default json.dumps serialization of the
top-level dataset_description value when present and non-null, and of
the fixed default Name Default, BIDSVersion 1.6.0 otherwise; the
binding survives the whole run, successful or not. -/
theorem spec_C9_amended (fs : FS) (target : FPath) (cfg : JObj)
    (h1 : fs.dirs.any (fun d => d == target) = false)
    (h2 : ∀ f ∈ fs.files, f.1 ≠ target ++ ["dataset_description.json"]) :
    ∀ fs3 r, generate_bids_skeleton fs target cfg = (fs3, r) →
      fs3.files.filter (fun f => f.1 == target ++ ["dataset_description.json"]) =
        [(target ++ ["dataset_description.json"],
          .data (.text (jsonDumps (descValue (pyPop "dataset_description" cfg).1))))] := by
  intro fs3 r h
  unfold generate_bids_skeleton at h
  have hmk : fs.mkdirParents target =
      .ok (((List.range target.length).map (fun i => target.take (i + 1))).foldl
        FS.mkdirOk fs) := by
    unfold FS.mkdirParents
    rw [if_neg (by simp [h1])]
  rw [hmk] at h
  dsimp only at h
  set dp := target ++ ["dataset_description.json"] with hdp
  set content := FData.data (.text (jsonDumps (descValue (pyPop "dataset_description" cfg).1)))
    with hcontent
  set fsM := ((List.range target.length).map (fun i => target.take (i + 1))).foldl
    FS.mkdirOk fs with hfsM
  set fs2 := fsM.write dp content with hfs2
  rcases hps : processSubjects fs2 target none (pyPop "dataset_description" cfg).2
    with ⟨fsZ, rz⟩
  rw [hps] at h
  have hfs3 : fs3 = fsZ := by
    cases rz with
    | ok u => exact (congrArg Prod.fst h).symm
    | error e => exact (congrArg Prod.fst h).symm
  rw [hfs3]
  have hMfiles : fsM.files = fs.files := by
    rw [hfsM]
    exact foldl_mkdirOk_files _ _
  have hany : fsM.files.any (fun f => f.1 == dp) = false := by
    cases hb : fsM.files.any (fun f => f.1 == dp) with
    | false => rfl
    | true =>
      obtain ⟨f, hf, he⟩ := List.any_eq_true.mp hb
      rw [hMfiles] at hf
      exact absurd (beq_iff_eq.mp he) (h2 f hf)
  have hwrite : fs2.files = fs.files ++ [(dp, content)] := by
    rw [hfs2]
    unfold FS.write
    rw [if_neg (by simp [hany]), hMfiles]
  have hshort := shortFiles_processSubjects target (pyPop "dataset_description" cfg).2
    (target.length + 1) (by omega) fs2 none
  rw [hps] at hshort
  dsimp only at hshort
  have hdlen : dp.length ≤ target.length + 1 := by
    rw [hdp, List.length_append]
    simp
  calc fsZ.files.filter (fun f => f.1 == dp)
      = (shortFiles (target.length + 1) fsZ.files).filter (fun f => f.1 == dp) :=
        (filter_path_shortFiles _ _ _ hdlen).symm
    _ = (shortFiles (target.length + 1) fs2.files).filter (fun f => f.1 == dp) := by
        rw [hshort]
    _ = fs2.files.filter (fun f => f.1 == dp) := filter_path_shortFiles _ _ _ hdlen
    _ = [(dp, content)] := by
        rw [hwrite, List.filter_append]
        have hleft : fs.files.filter (fun f => f.1 == dp) = [] := by
          rw [List.filter_eq_nil_iff]
          intro f hf hc
          exact h2 f hf (beq_iff_eq.mp hc)
        rw [hleft, List.nil_append, List.filter_cons, if_pos (beq_self_eq_true dp)]
        rfl

/-- Witness for the amended C9 on a concrete fresh materialization. -/
theorem spec_C9_amended_w :
    (generate_bids_skeleton FS.empty ["o"]
      [("01", JVal.obj [("anat", JVal.obj [("suffix", JVal.str "T1w")])])]).1.files.filter
        (fun f => f.1 == ["o"] ++ ["dataset_description.json"]) =
      [(["o"] ++ ["dataset_description.json"],
        .data (.text (jsonDumps (descValue (pyPop "dataset_description"
          [("01", JVal.obj [("anat", JVal.obj [("suffix", JVal.str "T1w")])])]).1))))] :=
  spec_C9_amended FS.empty ["o"]
    [("01", JVal.obj [("anat", JVal.obj [("suffix", JVal.str "T1w")])])]
    rfl (by intro f hf; cases hf) _ _ rfl

theorem binsEmpty_touch (fs : FS) (p : FPath) (h : binsEmpty fs.files) :
    binsEmpty (fs.touch p).files := by
  intro q n hq
  rcases FS.mem_touch fs p q _ hq with hm | hm
  · exact h q n hm
  · unfold FS.touch at hq
    split at hq
    · exact h q n hq
    · rcases List.mem_append.mp hq with hm2 | hm2
      · exact h q n hm2
      · have := congrArg Prod.snd (List.mem_singleton.mp hm2)
        simp only at this
        cases this
        rfl

theorem binsEmpty_write_text (fs : FS) (p : FPath) (s : String) (h : binsEmpty fs.files) :
    binsEmpty (fs.write p (.data (.text s))).files := by
  intro q n hq
  unfold FS.write at hq
  split at hq
  · obtain ⟨f, hf, he⟩ := List.mem_map.mp hq
    by_cases hfp : f.1 == p
    · rw [if_pos hfp] at he
      have := congrArg Prod.snd he
      simp at this
    · rw [if_neg hfp] at he
      exact h q n (he ▸ hf)
  · rcases List.mem_append.mp hq with hm | hm
    · exact h q n hm
    · have := congrArg Prod.snd (List.mem_singleton.mp hm)
      simp at this

theorem binsEmpty_processEntry (fs : FS) (modPath : FPath) (pfx : String) (e : JVal)
    (h : binsEmpty fs.files) : binsEmpty ((processEntry fs modPath pfx e).1).files := by
  cases e with
  | obj kvs0 =>
    dsimp only [processEntry]
    cases hsuf : (pyPop "suffix" (pyPop "extension" (pyPop "metadata" kvs0).2).2).1 with
    | none => exact h
    | some sv =>
      dsimp only
      cases hmv : ((pyPop "metadata" kvs0).1).getD .null with
      | null => exact binsEmpty_touch fs _ h
      | bool b =>
        cases hev : ((pyPop "extension" (pyPop "metadata" kvs0).2).1).getD (.str ".nii.gz") <;>
          first
            | exact binsEmpty_touch fs _ h
            | exact binsEmpty_write_text _ _ _ (binsEmpty_touch fs _ h)
      | num nn =>
        cases hev : ((pyPop "extension" (pyPop "metadata" kvs0).2).1).getD (.str ".nii.gz") <;>
          first
            | exact binsEmpty_touch fs _ h
            | exact binsEmpty_write_text _ _ _ (binsEmpty_touch fs _ h)
      | str s2 =>
        cases hev : ((pyPop "extension" (pyPop "metadata" kvs0).2).1).getD (.str ".nii.gz") <;>
          first
            | exact binsEmpty_touch fs _ h
            | exact binsEmpty_write_text _ _ _ (binsEmpty_touch fs _ h)
      | arr xs =>
        cases hev : ((pyPop "extension" (pyPop "metadata" kvs0).2).1).getD (.str ".nii.gz") <;>
          first
            | exact binsEmpty_touch fs _ h
            | exact binsEmpty_write_text _ _ _ (binsEmpty_touch fs _ h)
      | obj kvs =>
        cases hev : ((pyPop "extension" (pyPop "metadata" kvs0).2).1).getD (.str ".nii.gz") <;>
          first
            | exact binsEmpty_touch fs _ h
            | exact binsEmpty_write_text _ _ _ (binsEmpty_touch fs _ h)
  | arr xs => exact h
  | null => exact h
  | bool b => exact h
  | num n => exact h
  | str s => exact h

theorem binsEmpty_processFiles (modPath : FPath) (pfx : String) (l : List JVal) :
    ∀ fs : FS, binsEmpty fs.files → binsEmpty ((processFiles fs modPath pfx l).1).files := by
  induction l with
  | nil => intro fs h; exact h
  | cons e rest ih =>
    intro fs h
    dsimp only [processFiles]
    rcases hpe : processEntry fs modPath pfx e with ⟨fs1, r⟩
    have he : binsEmpty fs1.files := by
      have := binsEmpty_processEntry fs modPath pfx e h
      rw [hpe] at this
      exact this
    cases r with
    | ok u => exact ih fs1 he
    | error er => exact he

theorem binsEmpty_processModalities (curr : FPath) (pfx : String) (l : JObj) :
    ∀ fs : FS, binsEmpty fs.files →
      binsEmpty ((processModalities fs curr pfx l).1).files := by
  induction l with
  | nil => intro fs h; exact h
  | cons mf rest ih =>
    intro fs h
    rcases mf with ⟨modality, files⟩
    dsimp only [processModalities]
    have hmk : binsEmpty (fs.mkdirOk (curr ++ [modality])).files := by
      rw [FS.mkdirOk_files]
      exact h
    cases hel : entryList files with
    | error e => exact hmk
    | ok fl =>
      dsimp only
      rcases hpf : processFiles (fs.mkdirOk (curr ++ [modality])) (curr ++ [modality]) pfx fl
        with ⟨fs2, r⟩
      have hf : binsEmpty fs2.files := by
        have := binsEmpty_processFiles (curr ++ [modality]) pfx fl
          (fs.mkdirOk (curr ++ [modality])) hmk
        rw [hpf] at this
        exact this
      cases r with
      | ok u => exact ih fs2 hf
      | error er => exact hf

theorem binsEmpty_processSessions (root : FPath) (bsub : String) (l : List JVal) :
    ∀ fs : FS, binsEmpty fs.files →
      binsEmpty ((processSessions fs root bsub l).1).files := by
  induction l with
  | nil => intro fs h; exact h
  | cons s rest ih =>
    intro fs h
    cases s with
    | obj kvs0 =>
      dsimp only [processSessions]
      cases hses : ((pyPop "session" kvs0).1).getD .null with
      | null =>
        dsimp only
        rcases hpm : processModalities fs (root ++ [bsub]) bsub (pyPop "session" kvs0).2
          with ⟨fs1, r⟩
        have hm : binsEmpty fs1.files := by
          have := binsEmpty_processModalities (root ++ [bsub]) bsub
            (pyPop "session" kvs0).2 fs h
          rw [hpm] at this
          exact this
        cases r with
        | ok u => exact ih fs1 hm
        | error er => exact hm
      | str sn =>
        dsimp only
        rcases hpm : processModalities (fs.mkdirOk (root ++ [bsub, normSes sn]))
            (root ++ [bsub, normSes sn]) (bsub ++ "_" ++ normSes sn) (pyPop "session" kvs0).2
          with ⟨fs1, r⟩
        have hm : binsEmpty fs1.files := by
          have := binsEmpty_processModalities (root ++ [bsub, normSes sn])
            (bsub ++ "_" ++ normSes sn) (pyPop "session" kvs0).2
            (fs.mkdirOk (root ++ [bsub, normSes sn])) (by rw [FS.mkdirOk_files]; exact h)
          rw [hpm] at this
          exact this
        cases r with
        | ok u => exact ih fs1 hm
        | error er => exact hm
      | bool b => exact h
      | num n => exact h
      | arr xs => exact h
      | obj kvs => exact h
    | arr xs => exact h
    | null => exact h
    | bool b => exact h
    | num n => exact h
    | str s2 => exact h

theorem binsEmpty_processSubjects (root : FPath) (l : JObj) :
    ∀ (fs : FS) (cache : Option JVal), binsEmpty fs.files →
      binsEmpty ((processSubjects fs root cache l).1).files := by
  induction l with
  | nil => intro fs cache h; exact h
  | cons sv rest ih =>
    intro fs cache h
    rcases sv with ⟨subject, v⟩
    dsimp only [processSubjects]
    have hmk : binsEmpty (fs.mkdirOk (root ++ [normSub subject])).files := by
      rw [FS.mkdirOk_files]
      exact h
    cases hrv : resolveSessions cache v with
    | error e => exact hmk
    | ok v1 =>
      dsimp only
      cases hsl : sessionList (wrapSingle v1) with
      | error e => exact hmk
      | ok ss =>
        dsimp only
        rcases hps : processSessions (fs.mkdirOk (root ++ [normSub subject])) root
            (normSub subject) ss with ⟨fs2, r⟩
        have hs : binsEmpty fs2.files := by
          have := binsEmpty_processSessions root (normSub subject) ss
            (fs.mkdirOk (root ++ [normSub subject])) hmk
          rw [hps] at this
          exact this
        cases r with
        | ok u => exact ih fs2 (some (wrapSingle v1)) hs
        | error er => exact hs

theorem binsEmpty_generate (fs : FS) (target : FPath) (cfg : JObj)
    (h : binsEmpty fs.files) :
    binsEmpty ((generate_bids_skeleton fs target cfg).1).files := by
  unfold generate_bids_skeleton
  cases hmk : fs.mkdirParents target with
  | error e => exact h
  | ok fs1 =>
    dsimp only
    have hf1 : binsEmpty fs1.files := by
      rw [FS.mkdirParents_files fs fs1 target hmk]
      exact h
    rcases hps : processSubjects (fs1.write (target ++ ["dataset_description.json"])
        (.data (.text (jsonDumps (descValue (pyPop "dataset_description" cfg).1)))))
        target none (pyPop "dataset_description" cfg).2 with ⟨fsZ, rz⟩
    have hz : binsEmpty fsZ.files := by
      have := binsEmpty_processSubjects target (pyPop "dataset_description" cfg).2
        (fs1.write (target ++ ["dataset_description.json"])
          (.data (.text (jsonDumps (descValue (pyPop "dataset_description" cfg).1)))))
        none (binsEmpty_write_text fs1 _ _ hf1)
      rw [hps] at this
      exact this
    cases rz with
    | ok u => exact hz
    | error e => exact hz

/-- Counterexample to claim C7 as stated: with fill requested, the run
on the minimal skeleton leaves dataset_description.json with its JSON
text, a produced file that is not an imaging file and does not have size
zero; so not all other produced files remain zero-length. -/
theorem spec_C7_cex :
    (simulate_dataset FS.empty []
      (some [("01", .obj [("anat", .obj [("suffix", .str "T1w")])])])
      "none" true "1-0-1").1.files =
      [(["simbids", "dataset_description.json"], .data (.text (jsonDumps defaultDescription))),
       (["simbids", "sub-01", "anat", "sub-01_T1w.nii.gz"], .data (.bin 10485760))] ∧
    SData.size (.text (jsonDumps defaultDescription)) ≠ 0 ∧
    strEndsWith "dataset_description.json" ".nii.gz" = false :=
  ⟨rfl, by decide, by decide⟩

/-- Claim C7 as amended: on a fresh filesystem, the successful filled
run produces exactly the no-fill tree with every file whose name ends in
.nii.gz overwritten by 10485760 bytes of random content; every such file
of the filled tree under the dataset directory has exactly that content
size, the fill step leaves every other file unchanged, and without fill
every placeholder (binary) file has size zero. -/
theorem spec_C7_amended (outputDir : FPath) (cfg : JObj) (vtag : String) (fs0 : FS)
    (hfiles : fs0.files = []) (fs1 fs2 : FS)
    (h1 : simulate_dataset fs0 outputDir (some cfg) "none" false vtag = (fs1, .ok outputDir))
    (h2 : simulate_dataset fs0 outputDir (some cfg) "none" true vtag = (fs2, .ok outputDir)) :
    fs2.files = fs1.files.map (fun f =>
      if (outputDir ++ ["simbids"]).isPrefixOf f.1 && strEndsWith (f.1.getLastD "") ".nii.gz"
      then (f.1, .data (.bin 10485760)) else f) ∧
    (∀ p d, (p, d) ∈ fs2.files →
      (outputDir ++ ["simbids"]).isPrefixOf p = true →
      strEndsWith (p.getLastD "") ".nii.gz" = true →
      d = .data (.bin 10485760)) ∧
    (∀ p d, (p, d) ∈ fs2.files →
      ((outputDir ++ ["simbids"]).isPrefixOf p = true →
        strEndsWith (p.getLastD "") ".nii.gz" = true → False) →
      (p, d) ∈ fs1.files) ∧
    (∀ p n, (p, .data (.bin n)) ∈ fs1.files → n = 0) := by
  unfold simulate_dataset at h1 h2
  rw [if_pos (Or.inl rfl)] at h1 h2
  dsimp only at h1 h2
  rcases hg : generate_bids_skeleton fs0 (outputDir ++ ["simbids"]) cfg with ⟨g, rg⟩
  rw [hg] at h1 h2
  cases rg with
  | error e =>
    dsimp only at h1
    exact absurd (congrArg Prod.snd h1) (by simp)
  | ok res =>
    dsimp only at h1 h2
    rw [if_neg (by decide), if_neg (by decide)] at h1 h2
    have e1 : fs1 = g := (congrArg Prod.fst h1).symm
    have e2 : fs2 = fillStep (outputDir ++ ["simbids"]) g := (congrArg Prod.fst h2).symm
    have hbins : binsEmpty g.files := by
      have := binsEmpty_generate fs0 (outputDir ++ ["simbids"]) cfg
        (by rw [hfiles]; intro p n hn; cases hn)
      rw [hg] at this
      exact this
    subst e1
    subst e2
    refine ⟨rfl, ?_, ?_, fun p n hm => hbins p n hm⟩
    · intro p d hm hpre hend
      obtain ⟨f, hf, he⟩ := List.mem_map.mp hm
      by_cases hc : (outputDir ++ ["simbids"]).isPrefixOf f.1 &&
          strEndsWith (f.1.getLastD "") ".nii.gz"
      · rw [if_pos hc] at he
        exact (congrArg Prod.snd he).symm
      · rw [if_neg hc] at he
        exfalso
        apply hc
        have hp : f.1 = p := congrArg Prod.fst he
        rw [hp, hpre, hend]
        rfl
    · intro p d hm hnot
      obtain ⟨f, hf, he⟩ := List.mem_map.mp hm
      by_cases hc : (outputDir ++ ["simbids"]).isPrefixOf f.1 &&
          strEndsWith (f.1.getLastD "") ".nii.gz"
      · rw [if_pos hc] at he
        exfalso
        have hp : p = f.1 := (congrArg Prod.fst he).symm
        have hcc := (Bool.and_eq_true _ _).mp hc
        exact hnot (hp ▸ hcc.1) (hp ▸ hcc.2)
      · rw [if_neg hc] at he
        exact he ▸ hf

/-- Witness for the amended C7 on the concrete minimal skeleton. -/
theorem spec_C7_amended_w :
    (simulate_dataset FS.empty []
      (some [("01", JVal.obj [("anat", JVal.obj [("suffix", JVal.str "T1w")])])])
      "none" true "1-0-1").1.files =
      (simulate_dataset FS.empty []
        (some [("01", JVal.obj [("anat", JVal.obj [("suffix", JVal.str "T1w")])])])
        "none" false "1-0-1").1.files.map (fun f =>
        if ([] ++ ["simbids"] : FPath).isPrefixOf f.1 && strEndsWith (f.1.getLastD "") ".nii.gz"
        then (f.1, .data (.bin 10485760)) else f) :=
  (spec_C7_amended [] [("01", JVal.obj [("anat", JVal.obj [("suffix", JVal.str "T1w")])])]
    "1-0-1" FS.empty rfl _ _ rfl rfl).1

/-! Facts about boolean path comparisons used by the archiver. -/

theorem strExt (s t : String) (h : s.data = t.data) : s = t := by
  cases s
  cases t
  exact congrArg String.mk h

theorem isPrefixOf_le (l d : FPath) (h : l.isPrefixOf d = true) : l.length ≤ d.length :=
  (List.isPrefixOf_iff_prefix.mp h).length_le

theorem isPrefixOf_false_of_short (l d : FPath) (h : d.length < l.length) :
    l.isPrefixOf d = false := by
  cases hb : l.isPrefixOf d with
  | false => rfl
  | true => exact absurd (isPrefixOf_le l d hb) (by omega)

theorem isPrefixOf_append_self (l t : FPath) : l.isPrefixOf (l ++ t) = true :=
  List.isPrefixOf_iff_prefix.mpr (List.prefix_append l t)

theorem eq_of_isPrefixOf_same_length (l₁ l₂ d : FPath) (h₁ : l₁.isPrefixOf d = true)
    (h₂ : l₂.isPrefixOf d = true) (hl : l₁.length = l₂.length) : l₁ = l₂ := by
  have e₁ := List.prefix_iff_eq_take.mp (List.isPrefixOf_iff_prefix.mp h₁)
  have e₂ := List.prefix_iff_eq_take.mp (List.isPrefixOf_iff_prefix.mp h₂)
  rw [e₁, e₂, hl]

theorem zipName_inj (s t vtag : String) (h : zipName s vtag = zipName t vtag) : s = t := by
  unfold zipName at h
  have hd := congrArg String.data h
  rw [String.data_append, String.data_append, String.data_append, String.data_append,
    String.data_append, String.data_append] at hd
  rw [List.append_assoc, List.append_assoc, List.append_assoc, List.append_assoc] at hd
  exact strExt s t (List.append_cancel_right hd)

theorem zipPath_inj (outputDir : FPath) (vtag s t : String)
    (h : outputDir ++ [zipName s vtag] = outputDir ++ [zipName t vtag]) : s = t := by
  have := List.append_cancel_left h
  exact zipName_inj s t vtag (List.singleton_injective this)

theorem zipPath_not_under (outputDir : FPath) (vtag s t : String) :
    ((outputDir ++ ["simbids"]) ++ [t]).isPrefixOf (outputDir ++ [zipName s vtag]) = false := by
  apply isPrefixOf_false_of_short
  rw [List.length_append, List.length_append, List.length_append]
  simp

theorem zipEntriesFor_filter_other (root : FPath) (s t : String) (hst : s ≠ t)
    (l : List (FPath × FData)) :
    zipEntriesFor root s (l.filter (fun f => !(root ++ [t]).isPrefixOf f.1)) =
      zipEntriesFor root s l := by
  unfold zipEntriesFor
  induction l with
  | nil => rfl
  | cons f rest ih =>
    rw [List.filter_cons]
    cases hs : (root ++ [s]).isPrefixOf f.1 with
    | true =>
      have ht : (root ++ [t]).isPrefixOf f.1 = false := by
        cases hb : (root ++ [t]).isPrefixOf f.1 with
        | false => rfl
        | true =>
          exfalso
          have := eq_of_isPrefixOf_same_length (root ++ [s]) (root ++ [t]) f.1 hs hb
            (by simp)
          exact hst (List.singleton_injective (List.append_cancel_left this))
      rw [ht]
      simp only [Bool.not_false, if_true, List.filterMap_cons, hs]
      simp only [ih]
    | false =>
      cases hb : (root ++ [t]).isPrefixOf f.1 with
      | false =>
        simp only [hb, Bool.not_false, if_true, List.filterMap_cons, hs]
        simp only [Bool.false_eq_true, if_false, ih]
      | true =>
        simp only [hb, Bool.not_true]
        rw [if_neg (by simp)]
        simp only [List.filterMap_cons, hs]
        simp only [Bool.false_eq_true, if_false, ih]

theorem zipEntriesFor_not_zip (root : FPath) (s : String) (outputDir : FPath) (vtag t : String)
    (d : FData) (hroot : root = outputDir ++ ["simbids"]) :
    zipEntriesFor root s [(outputDir ++ [zipName t vtag], d)] = [] := by
  unfold zipEntriesFor
  rw [List.filterMap_cons, if_neg, List.filterMap_nil]
  subst hroot
  simp [zipPath_not_under]

theorem zipEntriesFor_append (root : FPath) (s : String) (l1 l2 : List (FPath × FData)) :
    zipEntriesFor root s (l1 ++ l2) = zipEntriesFor root s l1 ++ zipEntriesFor root s l2 := by
  unfold zipEntriesFor
  exact List.filterMap_append l1 l2 _

theorem zipOneSubject_files (outputDir : FPath) (vtag s : String) (fs : FS)
    (hfresh : ∀ f ∈ fs.files, f.1 ≠ outputDir ++ [zipName s vtag]) :
    (zipOneSubject outputDir vtag fs s).files =
      fs.files.filter (fun f => !((outputDir ++ ["simbids"]) ++ [s]).isPrefixOf f.1) ++
        [(outputDir ++ [zipName s vtag],
          .zipArc (zipEntriesFor (outputDir ++ ["simbids"]) s fs.files))] := by
  unfold zipOneSubject
  dsimp only
  have hw : (fs.write (outputDir ++ [zipName s vtag])
      (.zipArc (zipEntriesFor (outputDir ++ ["simbids"]) s fs.files))).files =
      fs.files ++ [(outputDir ++ [zipName s vtag],
        .zipArc (zipEntriesFor (outputDir ++ ["simbids"]) s fs.files))] := by
    unfold FS.write
    rw [if_neg]
    intro hany
    obtain ⟨f, hf, he⟩ := List.any_eq_true.mp hany
    exact hfresh f hf (beq_iff_eq.mp he)
  rw [hw, List.filter_append, List.filter_cons, if_pos]
  · rfl
  · rw [zipPath_not_under]
    rfl

theorem zipOneSubject_dirs (outputDir : FPath) (vtag s : String) (fs : FS) :
    (zipOneSubject outputDir vtag fs s).dirs =
      fs.dirs.filter (fun d => !((outputDir ++ ["simbids"]) ++ [s]).isPrefixOf d) := by
  unfold zipOneSubject
  dsimp only
  rw [FS.write_dirs]

theorem archiveFold_dirs (outputDir : FPath) (vtag : String) :
    ∀ (todo : List String) (fs : FS),
      (todo.foldl (zipOneSubject outputDir vtag) fs).dirs =
        fs.dirs.filter (fun d =>
          todo.all (fun s => !((outputDir ++ ["simbids"]) ++ [s]).isPrefixOf d)) := by
  intro todo
  induction todo with
  | nil =>
    intro fs
    simp only [List.foldl_nil, List.all_nil]
    exact (List.filter_true _).symm
  | cons s0 rest ih =>
    intro fs
    rw [List.foldl_cons, ih, zipOneSubject_dirs, List.filter_filter]
    apply List.filter_congr
    intro d _
    rw [List.all_cons]
    cases h1 : ((outputDir ++ ["simbids"]) ++ [s0]).isPrefixOf d <;>
      cases h2 : rest.all (fun s => !((outputDir ++ ["simbids"]) ++ [s]).isPrefixOf d) <;>
        simp [h1, h2]

theorem archiveFold_files (outputDir : FPath) (vtag : String) :
    ∀ (todo : List String) (fs : FS), todo.Nodup →
      (∀ f ∈ fs.files, ∀ s ∈ todo, f.1 ≠ outputDir ++ [zipName s vtag]) →
      (todo.foldl (zipOneSubject outputDir vtag) fs).files =
        fs.files.filter (fun f =>
          todo.all (fun s => !((outputDir ++ ["simbids"]) ++ [s]).isPrefixOf f.1)) ++
        todo.map (fun s => (outputDir ++ [zipName s vtag],
          FData.zipArc (zipEntriesFor (outputDir ++ ["simbids"]) s fs.files))) := by
  intro todo
  induction todo with
  | nil =>
    intro fs _ _
    simp only [List.foldl_nil, List.all_nil, List.map_nil, List.append_nil]
    exact (List.filter_true _).symm
  | cons s0 rest ih =>
    intro fs hnd hfresh
    have hfresh0 : ∀ f ∈ fs.files, f.1 ≠ outputDir ++ [zipName s0 vtag] :=
      fun f hf => hfresh f hf s0 (List.mem_cons_self s0 rest)
    have hfs1 := zipOneSubject_files outputDir vtag s0 fs hfresh0
    have hs0nr : s0 ∉ rest := (List.nodup_cons.mp hnd).1
    have hndr : rest.Nodup := (List.nodup_cons.mp hnd).2
    rw [List.foldl_cons, ih (zipOneSubject outputDir vtag fs s0) hndr]
    · rw [hfs1, List.filter_append, List.filter_cons, if_pos]
      · rw [List.filter_filter]
        have hfilter : fs.files.filter (fun f =>
            (rest.all (fun s => !((outputDir ++ ["simbids"]) ++ [s]).isPrefixOf f.1)) &&
              !((outputDir ++ ["simbids"]) ++ [s0]).isPrefixOf f.1) =
            fs.files.filter (fun f =>
              (s0 :: rest).all (fun s => !((outputDir ++ ["simbids"]) ++ [s]).isPrefixOf f.1)) := by
          apply List.filter_congr
          intro f _
          rw [List.all_cons]
          cases h1 : ((outputDir ++ ["simbids"]) ++ [s0]).isPrefixOf f.1 <;>
            cases h2 : rest.all
              (fun s => !((outputDir ++ ["simbids"]) ++ [s]).isPrefixOf f.1) <;>
              simp [h1, h2]
        have hmap : rest.map (fun s => (outputDir ++ [zipName s vtag],
            FData.zipArc (zipEntriesFor (outputDir ++ ["simbids"]) s
              (fs.files.filter (fun f =>
                !((outputDir ++ ["simbids"]) ++ [s0]).isPrefixOf f.1) ++
              [(outputDir ++ [zipName s0 vtag],
                FData.zipArc (zipEntriesFor (outputDir ++ ["simbids"]) s0 fs.files))])))) =
            rest.map (fun s => (outputDir ++ [zipName s vtag],
              FData.zipArc (zipEntriesFor (outputDir ++ ["simbids"]) s fs.files))) := by
          apply List.map_congr_left
          intro s hs
          have hss0 : s ≠ s0 := fun he => hs0nr (he ▸ hs)
          rw [zipEntriesFor_append]
          rw [zipEntriesFor_not_zip (outputDir ++ ["simbids"]) s outputDir vtag s0 _ rfl]
          rw [List.append_nil]
          rw [zipEntriesFor_filter_other (outputDir ++ ["simbids"]) s s0 hss0]
        rw [hfilter, hmap, List.append_assoc]
        rfl
      · rw [List.all_eq_true]
        intro s hs
        rw [zipPath_not_under]
        rfl
    · intro f hf s hs
      rw [hfs1] at hf
      rcases List.mem_append.mp hf with hm | hm
      · exact hfresh f (List.mem_filter.mp hm).1 s (List.mem_cons_of_mem s0 hs)
      · have hne : f.1 = outputDir ++ [zipName s0 vtag] := by
          have := List.mem_singleton.mp hm
          rw [this]
        rw [hne]
        intro hc
        exact hs0nr ((zipPath_inj outputDir vtag s0 s hc) ▸ hs)

theorem zips_filter_map (outputDir : FPath) (vtag : String)
    (E : String → List (FPath × SData)) :
    ∀ (todo : List String), todo.Nodup → ∀ s ∈ todo,
      ((todo.map (fun t => (outputDir ++ [zipName t vtag], FData.zipArc (E t)))).filter
        (fun f => f.1 == outputDir ++ [zipName s vtag])) =
      [(outputDir ++ [zipName s vtag], FData.zipArc (E s))] := by
  intro todo
  induction todo with
  | nil => intro _ s hs; cases hs
  | cons t rest ih =>
    intro hnd s hs
    have htnr : t ∉ rest := (List.nodup_cons.mp hnd).1
    have hndr : rest.Nodup := (List.nodup_cons.mp hnd).2
    rw [List.map_cons, List.filter_cons]
    rcases List.mem_cons.mp hs with rfl | hsr
    · rw [if_pos (by exact beq_self_eq_true _)]
      have hrest : ((rest.map (fun t => (outputDir ++ [zipName t vtag],
          FData.zipArc (E t)))).filter
            (fun f => f.1 == outputDir ++ [zipName s vtag])) = [] := by
        rw [List.filter_eq_nil_iff]
        intro f hf hc
        obtain ⟨t', ht', he⟩ := List.mem_map.mp hf
        have : f.1 = outputDir ++ [zipName t' vtag] := by rw [← he]
        rw [this] at hc
        have := zipPath_inj outputDir vtag t' s (beq_iff_eq.mp hc)
        exact htnr (this ▸ ht')
      rw [hrest]
    · have hts : t ≠ s := fun he => htnr (he ▸ hsr)
      rw [if_neg]
      · exact ih hndr s hsr
      · intro hc
        exact hts (zipPath_inj outputDir vtag t s (beq_iff_eq.mp hc))

/-- Claim C2: for a materialized dataset (every file strictly inside the
dataset root, directory listing without duplicates), subject-granularity
archiving replaces each immediate subject directory by exactly one zip
named with the subject and the version tag at the output directory,
whose entries contain every regular file of the subject subtree under
archive-internal paths rooted at simbids and the subject, and afterwards
no file or directory of the uncompressed subject subtree remains. -/
theorem spec_C2 (outputDir : FPath) (vtag : String) (fs : FS)
    (hnd : (immediateSubjects (outputDir ++ ["simbids"]) fs).Nodup)
    (hund : ∀ f ∈ fs.files, ((outputDir ++ ["simbids"]).isPrefixOf f.1 = true ∧
      (outputDir ++ ["simbids"]).length < f.1.length)) :
    ∀ s ∈ immediateSubjects (outputDir ++ ["simbids"]) fs,
      ((archiveSubjectLevel outputDir vtag fs).files.filter
          (fun f => f.1 == outputDir ++ [zipName s vtag])) =
        [(outputDir ++ [zipName s vtag],
          FData.zipArc (zipEntriesFor (outputDir ++ ["simbids"]) s fs.files))] ∧
      (∀ rel d, (((outputDir ++ ["simbids"]) ++ [s]) ++ rel, FData.data d) ∈ fs.files →
        (["simbids", s] ++ rel, d) ∈ zipEntriesFor (outputDir ++ ["simbids"]) s fs.files) ∧
      (∀ f ∈ (archiveSubjectLevel outputDir vtag fs).files,
        ((outputDir ++ ["simbids"]) ++ [s]).isPrefixOf f.1 = false) ∧
      (∀ dd ∈ (archiveSubjectLevel outputDir vtag fs).dirs,
        ((outputDir ++ ["simbids"]) ++ [s]).isPrefixOf dd = false) := by
  intro s hs
  have hfresh : ∀ f ∈ fs.files, ∀ t ∈ immediateSubjects (outputDir ++ ["simbids"]) fs,
      f.1 ≠ outputDir ++ [zipName t vtag] := by
    intro f hf t _ hc
    have hlen := (hund f hf).2
    rw [hc, List.length_append, List.length_append] at hlen
    simp at hlen
  have hfoldfiles := archiveFold_files outputDir vtag
    (immediateSubjects (outputDir ++ ["simbids"]) fs) fs hnd hfresh
  have harch : (archiveSubjectLevel outputDir vtag fs) =
      ((immediateSubjects (outputDir ++ ["simbids"]) fs).foldl
        (zipOneSubject outputDir vtag) fs) := rfl
  refine ⟨?_, ?_, ?_, ?_⟩
  · rw [harch, hfoldfiles, List.filter_append]
    have hleft : (fs.files.filter (fun f =>
        (immediateSubjects (outputDir ++ ["simbids"]) fs).all
          (fun t => !((outputDir ++ ["simbids"]) ++ [t]).isPrefixOf f.1))).filter
        (fun f => f.1 == outputDir ++ [zipName s vtag]) = [] := by
      rw [List.filter_eq_nil_iff]
      intro f hf hc
      exact hfresh f (List.mem_filter.mp hf).1 s hs (beq_iff_eq.mp hc)
    rw [hleft, List.nil_append]
    exact zips_filter_map outputDir vtag _ _ hnd s hs
  · intro rel d hm
    unfold zipEntriesFor
    refine List.mem_filterMap.mpr ⟨(((outputDir ++ ["simbids"]) ++ [s]) ++ rel,
      FData.data d), hm, ?_⟩
    rw [if_pos (isPrefixOf_append_self _ _)]
    have hdrop : (((outputDir ++ ["simbids"]) ++ [s]) ++ rel).drop
        ((outputDir ++ ["simbids"]).length + 1) = rel := by
      have hlen : (outputDir ++ ["simbids"]).length + 1 =
          ((outputDir ++ ["simbids"]) ++ [s]).length := by
        rw [List.length_append (outputDir ++ ["simbids"])]
        rfl
      rw [hlen, List.drop_left]
    rw [hdrop]
    rfl
  · intro f hf
    rw [harch, hfoldfiles] at hf
    rcases List.mem_append.mp hf with hm | hm
    · have hall := (List.mem_filter.mp hm).2
      have := List.all_eq_true.mp hall s hs
      cases hb : ((outputDir ++ ["simbids"]) ++ [s]).isPrefixOf f.1 with
      | false => rfl
      | true => rw [hb] at this; exact absurd this (by simp)
    · obtain ⟨t, _, he⟩ := List.mem_map.mp hm
      have hf1 : f.1 = outputDir ++ [zipName t vtag] := by rw [← he]
      rw [hf1]
      exact zipPath_not_under outputDir vtag t s
  · intro dd hdd
    rw [harch, archiveFold_dirs outputDir vtag] at hdd
    have hall := (List.mem_filter.mp hdd).2
    have := List.all_eq_true.mp hall s hs
    cases hb : ((outputDir ++ ["simbids"]) ++ [s]).isPrefixOf dd with
    | false => rfl
    | true => rw [hb] at this; exact absurd this (by simp)

/-- Witness for C2 at the concrete materialized dataset. -/
theorem spec_C2_w :
    ((archiveSubjectLevel ["o"] "1-0-1" c2fs).files.filter
        (fun f => f.1 == ["o"] ++ [zipName "sub-01" "1-0-1"])) =
      [(["o"] ++ [zipName "sub-01" "1-0-1"],
        FData.zipArc (zipEntriesFor (["o"] ++ ["simbids"]) "sub-01" c2fs.files))] ∧
    (∀ rel d, (((["o"] ++ ["simbids"]) ++ ["sub-01"]) ++ rel, FData.data d) ∈ c2fs.files →
      (["simbids", "sub-01"] ++ rel, d) ∈
        zipEntriesFor (["o"] ++ ["simbids"]) "sub-01" c2fs.files) ∧
    (∀ f ∈ (archiveSubjectLevel ["o"] "1-0-1" c2fs).files,
      ((["o"] ++ ["simbids"]) ++ ["sub-01"]).isPrefixOf f.1 = false) ∧
    (∀ dd ∈ (archiveSubjectLevel ["o"] "1-0-1" c2fs).dirs,
      ((["o"] ++ ["simbids"]) ++ ["sub-01"]).isPrefixOf dd = false) :=
  spec_C2 ["o"] "1-0-1" c2fs (by decide) (by decide) "sub-01" (by decide)
